import Mathlib

/-!
Shallow embedding of the dynastore library (a Go key/value layer over
DynamoDB) for verifying its specification claims.

The embedding models, faithfully to the Go source:
- DynamoDB items as association lists of attribute values (`Item`);
- the conditional-expression combinators used by the source
  (`Cond`, evaluated with DynamoDB semantics: a comparison against a
  missing attribute or a missing item is false, `attribute_not_exists`
  of anything on a missing item is true);
- `updateWithConditions`, `buildUpdate`, `isItemExpired`, `DecodeItem`
  from dynamo.go / util.go;
- the store-side semantics of a conditional UpdateItem / DeleteItem on
  a single (partition, key) cell, so that `PutWithContext`,
  `AtomicPutWithContext` and `AtomicDeleteWithContext` can be modelled
  as functions of the cell state;
- the cursor codec composition from kv.go, with the three external
  codec stages (JSON, gzip, base58 — all library code outside this
  repository) as parameters.

Wall-clock time (`time.Now().Unix()`) is passed explicitly as an
integer `timeNow` argument at the call sites where the Go code reads
the clock.
-/

namespace Dynastore

/-- A DynamoDB attribute value, restricted to the shapes this library
stores: strings (`S`) and numbers (`N`). -/
inductive AttrVal where
  | S (s : String)
  | N (n : Int)
deriving DecidableEq, Repr

/-- A stored item: an attribute map, modelled as an association list. -/
abbrev Item := List (String × AttrVal)

/-- Look up an attribute by name (first binding wins, as in a Go map
with unique keys). -/
def getAttr (it : Item) (a : String) : Option AttrVal :=
  match it with
  | [] => none
  | (k, w) :: rest => if k = a then some w else getAttr rest a

/-- Numeric view of an attribute: `some n` only when the attribute is
present with type `N`. -/
def getN (it : Item) (a : String) : Option Int :=
  match getAttr it a with
  | some (.N n) => some n
  | _ => none

/-- Set (insert or replace) an attribute. -/
def setAttr (it : Item) (a : String) (v : AttrVal) : Item :=
  match it with
  | [] => [(a, v)]
  | (k, w) :: rest => if k = a then (a, v) :: rest else (k, w) :: setAttr rest a v

/-- DynamoDB `ADD` on a numeric attribute: add to the stored number,
treating a missing (or non-numeric) attribute as starting from zero. -/
def addAttrN (it : Item) (a : String) (n : Int) : Item :=
  match getAttr it a with
  | some (.N m) => setAttr it a (.N (m + n))
  | _ => setAttr it a (.N n)

/-- The KVPair record type from kv.go (exported fields plus the
unexported `value` and `fields`). -/
structure KVPair where
  Partition : String
  Key : String
  Version : Int
  Expires : Int
  value : Option AttrVal
  fields : Item
deriving DecidableEq, Repr

/-- Errors, mirroring the Go error values and shapes the library can
return: the sentinel store errors, AWS service errors carrying a code
string, decode failures, and `fmt.Errorf("...: %w", err)` wrapping. -/
inductive GoError where
  | errKeyNotFound
  | errKeyExists
  | errKeyModified
  | errReservedField
  | awsError (code : String)
  | decodeError (msg : String)
  | wrapped (ctx : String) (cause : GoError)
deriving DecidableEq, Repr

/-- The AWS error code string the source compares against
(`dynamodb.ErrCodeConditionalCheckFailedException`). -/
def conditionalCheckFailedCode : String := "ConditionalCheckFailedException"

/-- errors.Is-style test: unwrap `wrapped` layers and compare. -/
def errIs : GoError → GoError → Bool
  | .wrapped _ cause, target => errIs cause target
  | e, target => e == target

/-- The condition-expression combinators used by the source
(dexp.AttributeNotExists, Equal, GreaterThanEqual, LessThan, And, Or). -/
inductive Cond where
  | attributeNotExists (name : String)
  | numEq (name : String) (v : Int)
  | numGE (name : String) (v : Int)
  | numLT (name : String) (v : Int)
  | and (a b : Cond)
  | or (a b : Cond)
deriving DecidableEq, Repr

/-- DynamoDB evaluation of a condition expression against the current
state of the addressed item (`none` = no item with that key exists).
When no item exists, `attribute_not_exists` is true and every
comparison is false; a comparison against a missing or non-numeric
attribute is false. -/
def condEval : Cond → Option Item → Bool
  | .attributeNotExists _, none => true
  | .attributeNotExists a, some it => (getAttr it a).isNone
  | .numEq _ _, none => false
  | .numEq a v, some it => getN it a == some v
  | .numGE _ _, none => false
  | .numGE a v, some it =>
      match getN it a with
      | some n => decide (n ≥ v)
      | none => false
  | .numLT _ _, none => false
  | .numLT a v, some it =>
      match getN it a with
      | some n => decide (n < v)
      | none => false
  | .and a b, cell => condEval a cell && condEval b cell
  | .or a b, cell => condEval a cell || condEval b cell

/-- updateWithConditions from dynamo.go. `previous` is the optional
previous KVPair, `timeNow` the value of `time.Now().Unix()` read while
building the expression.

With a previous record:
  `version = previous.Version AND (attribute_not_exists(expires) OR expires >= timeNow)`.
With no previous record the source builds (NOTE: its own comment says
`attribute_exists(expires)` but the code calls `dexp.AttributeNotExists`):
  `(attribute_not_exists(id) AND attribute_not_exists(name)) OR (attribute_not_exists(expires) AND expires < timeNow)`. -/
def updateWithConditions (previous : Option KVPair) (timeNow : Int) : Cond :=
  match previous with
  | some prev =>
      let checkExpires : Cond :=
        .or (.attributeNotExists "expires") (.numGE "expires" timeNow)
      let checkVersion : Cond := .numEq "version" prev.Version
      .and checkVersion checkExpires
  | none =>
      let checkExpires : Cond :=
        .and (.attributeNotExists "expires") (.numLT "expires" timeNow)
      let checkExists : Cond :=
        .and (.attributeNotExists "id") (.attributeNotExists "name")
      .or checkExists checkExpires

/-- isItemExpired from util.go: if the item carries an `expires`
attribute, parse its numeric field and test
`time.Unix(ttl, 0).Before(time.Now())` — a strict `<` comparison.
When the attribute is present but not numeric, `aws.StringValue(v.N)`
is empty, ParseInt fails, and ttl stays 0. -/
def isItemExpired (item : Item) (timeNow : Int) : Bool :=
  match getAttr item "expires" with
  | some (.N n) => decide (n < timeNow)
  | some _ => decide ((0 : Int) < timeNow)
  | none => false

/-- The reserved attribute names (keys of the `reservedFields` map in
kv.go / dynamo.go). -/
def reservedFields : List String := ["id", "name", "version", "expires", "payload"]

/-- isReservedField from util.go. -/
def isReservedField (s : String) : Bool := reservedFields.contains s

/-- Field decode of a string attribute, as dynamodbattribute.UnmarshalMap
into a string struct field: missing yields the zero value, wrong wire
type fails. -/
def decodeS (v : Option AttrVal) : Except GoError String :=
  match v with
  | none => .ok ""
  | some (.S s) => .ok s
  | some _ => .error (.decodeError "unmarshal type error: string")

/-- Field decode of a numeric attribute, as dynamodbattribute.UnmarshalMap
into an int64 struct field: missing yields the zero value, wrong wire
type fails. -/
def decodeN (v : Option AttrVal) : Except GoError Int :=
  match v with
  | none => .ok 0
  | some (.N n) => .ok n
  | some _ => .error (.decodeError "unmarshal type error: int64")

/-- DecodeItem from util.go: unmarshal the reserved attributes into the
KVPair, keep the `payload` attribute verbatim, and copy every
non-reserved attribute into `fields`. -/
def DecodeItem (item : Item) : Except GoError KVPair := do
  let p ← decodeS (getAttr item "id")
  let k ← decodeS (getAttr item "name")
  let v ← decodeN (getAttr item "version")
  let e ← decodeN (getAttr item "expires")
  .ok { Partition := p, Key := k, Version := v, Expires := e,
        value := getAttr item "payload",
        fields := item.filter (fun kv => !(isReservedField kv.1)) }

/-- WriteOptions from options.go. `fields` is `some m` when the Go map
is non-nil; `ttl` is the optional duration in seconds; `previous` is
the optional CAS assertion record. -/
structure WriteOptions where
  fields : Option Item := none
  value : Option String := none
  ttl : Option Int := none
  previous : Option KVPair := none
deriving DecidableEq, Repr

/-- A write option is a mutator applied to the options under
construction, as in the Go functional-option style. -/
abbrev WriteOption := WriteOptions → WriteOptions

/-- NewWriteOptions from options.go: fold the option mutators, in
order, over the zero-valued options. -/
def NewWriteOptions (opts : List WriteOption) : WriteOptions :=
  opts.foldl (fun acc o => o acc) {}

/-- WriteWithFields from options.go: assigns the whole fields map. -/
def WriteWithFields (fields : Item) : WriteOption :=
  fun opts => { opts with fields := some fields }

/-- WriteWithString from options.go. -/
def WriteWithString (val : String) : WriteOption :=
  fun opts => { opts with value := some val }

/-- WriteWithTTL from options.go (duration in seconds). -/
def WriteWithTTL (ttl : Int) : WriteOption :=
  fun opts => { opts with ttl := some ttl }

/-- WriteWithPreviousKV from options.go. -/
def WriteWithPreviousKV (previous : KVPair) : WriteOption :=
  fun opts => { opts with previous := some previous }

/-- The update expression built by buildUpdate: one `ADD version 1`
action plus the accumulated `SET` actions in the order the source adds
them. -/
structure Update where
  addVersion : Int
  sets : List (String × AttrVal)
deriving DecidableEq, Repr

/-- The fields loop inside buildUpdate: re-validate every field name
against the reserved set, returning ErrReservedField on a hit,
otherwise add a `SET` action for it. -/
def addFieldSets (u : Update) : Item → Except GoError Update
  | [] => .ok u
  | (k, v) :: rest =>
      if isReservedField k then .error .errReservedField
      else addFieldSets { u with sets := u.sets ++ [(k, v)] } rest

/-- buildUpdate from dynamo.go: always `ADD version 1`; then SET the
payload when a value was supplied, SET each extra field (reserved
names rejected), and SET `expires` to `time.Now().Add(ttl).Unix()`
(= timeNow + ttl) when a TTL was supplied. -/
def buildUpdate (options : WriteOptions) (timeNow : Int) : Except GoError Update := do
  let update : Update := { addVersion := 1, sets := [] }
  let update :=
    match options.value with
    | some v => { update with sets := update.sets ++ [("payload", .S v)] }
    | none => update
  let update ←
    match options.fields with
    | some fields => addFieldSets update fields
    | none => .ok update
  let update :=
    match options.ttl with
    | some ttl => { update with sets := update.sets ++ [("expires", .N (timeNow + ttl))] }
    | none => update
  .ok update

/-- The base item an UpdateItem operates on: the stored item when one
exists, otherwise a fresh item holding just the key attributes
(DynamoDB UpdateItem creates the item, with its key, when absent). -/
def baseItem (partition key : String) (cell : Option Item) : Item :=
  match cell with
  | some it => it
  | none => [("id", .S partition), ("name", .S key)]

/-- Apply an update expression to an item: the `ADD version` action,
then every `SET` in order. -/
def applyUpdate (u : Update) (base : Item) : Item :=
  u.sets.foldl (fun it kv => setAttr it kv.1 kv.2) (addAttrN base "version" u.addVersion)

/-- Result shape of PutWithContext: the Go error (none on success) and
whether the remote UpdateItem call was issued. -/
structure PutReturn where
  err : Option GoError
  remoteCalled : Bool
deriving DecidableEq, Repr

/-- PutWithContext from dynamo.go, as a function of the single
(partition, key) cell it addresses: build the update (failing before
any remote call on a build error), then issue an unconditional
UpdateItem, which always applies. Returns the new cell state and the
call result. -/
def PutWithContext (partition key : String) (wo : WriteOptions) (timeNow : Int)
    (cell : Option Item) : Option Item × PutReturn :=
  match buildUpdate wo timeNow with
  | .error e => (cell, { err := some (.wrapped "failed to build update" e), remoteCalled := false })
  | .ok u => (some (applyUpdate u (baseItem partition key cell)), { err := none, remoteCalled := true })

/-- Result shape of AtomicPutWithContext: the `(bool, *KVPair, error)`
triple plus whether the remote UpdateItem call was issued. -/
structure AtomicPutReturn where
  ok : Bool
  pair : Option KVPair
  err : Option GoError
  remoteCalled : Bool
deriving DecidableEq, Repr

/-- The error-translation branch of AtomicPutWithContext
(dynamo.go lines 467-478): an AWS error whose code is
ConditionalCheckFailedException becomes ErrKeyExists when no previous
record was supplied and ErrKeyModified otherwise; every other error is
returned unchanged. -/
def translateAtomicPutErr (previous : Option KVPair) (e : GoError) : GoError :=
  match e with
  | .awsError code =>
      if code == conditionalCheckFailedCode then
        match previous with
        | none => .errKeyExists
        | some _ => .errKeyModified
      else .awsError code
  | e => e

/-- AtomicPutWithContext from dynamo.go, as a function of the single
(partition, key) cell: build the update and the condition, issue a
conditional UpdateItem, and translate a conditional-check failure via
`translateAtomicPutErr`. `inject` optionally makes the remote call
fail with an arbitrary error (transport or service failure) instead of
executing, so the error-translation path can be examined for every
remote failure. On success the ALL_NEW attributes are decoded with
DecodeItem. -/
def AtomicPutWithContext (partition key : String) (wo : WriteOptions) (timeNow : Int)
    (cell : Option Item) (inject : Option GoError) : Option Item × AtomicPutReturn :=
  match buildUpdate wo timeNow with
  | .error e =>
      (cell, { ok := false, pair := none,
               err := some (.wrapped "failed to build update" e), remoteCalled := false })
  | .ok u =>
      match inject with
      | some e =>
          (cell, { ok := false, pair := none,
                   err := some (translateAtomicPutErr wo.previous e), remoteCalled := true })
      | none =>
          let cond := updateWithConditions wo.previous timeNow
          if condEval cond cell then
            let newItem := applyUpdate u (baseItem partition key cell)
            match DecodeItem newItem with
            | .ok kv =>
                (some newItem, { ok := true, pair := some kv, err := none, remoteCalled := true })
            | .error e =>
                (some newItem, { ok := false, pair := none,
                                 err := some (.wrapped "failed to decode item" e), remoteCalled := true })
          else
            (cell, { ok := false, pair := none,
                     err := some (translateAtomicPutErr wo.previous (.awsError conditionalCheckFailedCode)),
                     remoteCalled := true })

/-- Observable outcome of an AtomicDelete call: the `(bool, error)`
return, or a runtime panic (nil-pointer dereference). -/
inductive AtomicDeleteResult where
  | ok
  | failErr (e : GoError)
  | panicked
deriving DecidableEq, Repr

/-- Full outcome of AtomicDeleteWithContext: the result, whether the
conditional DeleteItem was issued and with which condition, and the
cell state afterwards. -/
structure AtomicDeleteOutcome where
  result : AtomicDeleteResult
  deleteIssued : Bool
  deleteCond : Option Cond
  cellAfter : Option Item
deriving DecidableEq, Repr

/-- AtomicDeleteWithContext from dynamo.go, as a function of the single
(partition, key) cell (the initial non-conditional `getKey` read
returns that cell): fail fast with ErrKeyExists when no previous
record was given and the item exists unexpired; otherwise build the
condition `version = previous.Version` — a nil-pointer dereference
(panic) when `previous` is nil — and issue the conditional DeleteItem,
whose conditional-check failure is returned as ErrKeyNotFound. -/
def AtomicDeleteWithContext (previous : Option KVPair) (cell : Option Item)
    (timeNow : Int) : AtomicDeleteOutcome :=
  if previous.isNone && (match cell with
      | some it => !(isItemExpired it timeNow)
      | none => false) then
    { result := .failErr .errKeyExists, deleteIssued := false, deleteCond := none, cellAfter := cell }
  else
    match previous with
    | none =>
        { result := .panicked, deleteIssued := false, deleteCond := none, cellAfter := cell }
    | some prev =>
        let cond : Cond := .numEq "version" prev.Version
        if condEval cond cell then
          { result := .ok, deleteIssued := true, deleteCond := some cond, cellAfter := none }
        else
          { result := .failErr .errKeyNotFound, deleteIssued := true, deleteCond := some cond,
            cellAfter := cell }

/-- ExistsWithContext from dynamo.go, as a function of the cell: false
when the item is absent or expired, true otherwise. -/
def ExistsWithContext (cell : Option Item) (timeNow : Int) : Bool :=
  match cell with
  | none => false
  | some it => !(isItemExpired it timeNow)

/-- GetWithContext from dynamo.go, as a function of the cell:
ErrKeyNotFound when the item is absent or expired, otherwise the
decoded KVPair (decode failures wrapped). -/
def GetWithContext (cell : Option Item) (timeNow : Int) : Except GoError KVPair :=
  match cell with
  | none => .error .errKeyNotFound
  | some it =>
      if isItemExpired it timeNow then .error .errKeyNotFound
      else
        match DecodeItem it with
        | .ok kv => .ok kv
        | .error e => .error (.wrapped "failed to decode item" e)

/-- compressAndEncodeKey from kv.go: JSON-encode the attribute map,
gzip-compress the bytes, base58-encode the result. The three stages
are external library calls (encoding/json, compress/gzip,
mr-tron/base58) and are passed as parameters; the repository code is
the composition. -/
def compressAndEncodeKey {β γ : Type} (jsonEncode : Item → β) (gzipCompress : β → γ)
    (base58Encode : γ → String) (key : Item) : String :=
  base58Encode (gzipCompress (jsonEncode key))

/-- decompressAndDecodeKey from kv.go: base58-decode, gzip-decompress,
JSON-decode, failing on the first stage that rejects its input. -/
def decompressAndDecodeKey {β γ : Type} (base58Decode : String → Except GoError γ)
    (gzipDecompress : γ → Except GoError β) (jsonDecode : β → Except GoError Item)
    (key : String) : Except GoError Item := do
  let data ← base58Decode key
  let buf ← gzipDecompress data
  jsonDecode buf

/-- The create-semantics condition as the specification words it: the
record does not exist, OR it exists with its `expires` attribute set to
a numeric value that is strictly in the past. -/
def specCreateCondition (cell : Option Item) (timeNow : Int) : Bool :=
  match cell with
  | none => true
  | some it =>
      match getN it "expires" with
      | some e => decide (e < timeNow)
      | none => false

/-- The update-semantics condition as the specification words it: the
stored version equals the previous record's version, AND the `expires`
attribute is absent or its value is ≥ now (a comparison against a
missing or non-numeric attribute being false, as the store evaluates
it). -/
def specUpdateCondition (cell : Option Item) (prevVersion : Int) (timeNow : Int) : Bool :=
  match cell with
  | none => false
  | some it =>
      (getN it "version" == some prevVersion) &&
      ((getAttr it "expires").isNone ||
        (match getN it "expires" with
         | some e => decide (e ≥ timeNow)
         | none => false))

/-- The version the store holds for a cell, with the ADD convention:
no item, or no numeric `version` attribute, counts as 0. -/
def versionOf (cell : Option Item) : Int :=
  match cell with
  | none => 0
  | some it => (getN it "version").getD 0

/-- A sequence of Put calls against one (partition, key) cell:
`some finalCell` when every write in the sequence succeeded, `none` as
soon as one fails. Each step carries its own write options and clock
reading. -/
def putSeq (partition key : String) : List (WriteOptions × Int) → Option Item → Option (Option Item)
  | [], cell => some cell
  | (wo, timeNow) :: rest, cell =>
      match PutWithContext partition key wo timeNow cell with
      | (cellAfter, r) => if r.err.isNone then putSeq partition key rest cellAfter else none

/-! Helper lemmas about the attribute-map operations. -/

theorem getAttr_setAttr (it : Item) (a b : String) (v : AttrVal) :
    getAttr (setAttr it a v) b = if b = a then some v else getAttr it b := by
  induction it with
  | nil =>
      show (if a = b then some v else getAttr [] b) = if b = a then some v else none
      by_cases h : b = a
      · rw [if_pos h.symm, if_pos h]
      · rw [if_neg (fun hc => h hc.symm), if_neg h]
        rfl
  | cons hd tl ih =>
      obtain ⟨k, w⟩ := hd
      by_cases hka : k = a
      · have h1 : setAttr ((k, w) :: tl) a v = (a, v) :: tl := by
          show (if k = a then (a, v) :: tl else (k, w) :: setAttr tl a v) = (a, v) :: tl
          rw [if_pos hka]
        rw [h1]
        show (if a = b then some v else getAttr tl b) =
          if b = a then some v else (if k = b then some w else getAttr tl b)
        by_cases hba : b = a
        · rw [if_pos hba.symm, if_pos hba]
        · rw [if_neg (fun hc => hba hc.symm), if_neg hba,
            if_neg (fun (hc : k = b) => hba (hc.symm.trans hka))]
      · have h1 : setAttr ((k, w) :: tl) a v = (k, w) :: setAttr tl a v := by
          show (if k = a then (a, v) :: tl else (k, w) :: setAttr tl a v) = _
          rw [if_neg hka]
        rw [h1]
        show (if k = b then some w else getAttr (setAttr tl a v) b) =
          if b = a then some v else (if k = b then some w else getAttr tl b)
        rw [ih]
        by_cases hkb : k = b
        · have hba : ¬ b = a := fun hc => hka (hkb.trans hc)
          rw [if_pos hkb, if_neg hba, if_pos hkb]
        · rw [if_neg hkb, if_neg hkb]

theorem getN_setAttr (it : Item) (a b : String) (v : AttrVal) :
    getN (setAttr it a v) b =
      if b = a then (match v with | .N n => some n | _ => none) else getN it b := by
  by_cases h : b = a
  · cases v <;> simp [getN, getAttr_setAttr, h]
  · simp [getN, getAttr_setAttr, h]

theorem getN_addAttrN_self (it : Item) (a : String) (n : Int) :
    getN (addAttrN it a n) a = some ((getN it a).getD 0 + n) := by
  unfold addAttrN
  cases hga : getAttr it a with
  | none =>
      show getN (setAttr it a (AttrVal.N n)) a = some ((getN it a).getD 0 + n)
      rw [getN_setAttr]
      simp [getN, hga]
  | some v =>
      cases v with
      | S s =>
          show getN (setAttr it a (AttrVal.N n)) a = some ((getN it a).getD 0 + n)
          rw [getN_setAttr]
          simp [getN, hga]
      | N m =>
          show getN (setAttr it a (AttrVal.N (m + n))) a = some ((getN it a).getD 0 + n)
          rw [getN_setAttr]
          simp [getN, hga]

theorem getN_foldl_setAttr_of_ne (sets : List (String × AttrVal)) (it : Item) (a : String)
    (h : ∀ kv ∈ sets, kv.1 ≠ a) :
    getN (sets.foldl (fun acc kv => setAttr acc kv.1 kv.2) it) a = getN it a := by
  induction sets generalizing it with
  | nil => rfl
  | cons hd tl ih =>
      have hhd : hd.1 ≠ a := h hd (List.mem_cons_self hd tl)
      have htl : ∀ kv ∈ tl, kv.1 ≠ a := fun kv hkv => h kv (List.mem_cons_of_mem hd hkv)
      have hne : ¬ a = hd.1 := fun hcontra => hhd hcontra.symm
      rw [List.foldl_cons, ih _ htl, getN_setAttr, if_neg hne]

/-! Helper lemmas about buildUpdate. -/

theorem addFieldSets_no_version (fs : Item) (u : Update) (u1 : Update)
    (h : addFieldSets u fs = .ok u1) (hu : ∀ kv ∈ u.sets, kv.1 ≠ "version") :
    u1.addVersion = u.addVersion ∧ ∀ kv ∈ u1.sets, kv.1 ≠ "version" := by
  induction fs generalizing u with
  | nil =>
      simp [addFieldSets] at h
      subst h
      exact ⟨rfl, hu⟩
  | cons hd tl ih =>
      obtain ⟨k, v⟩ := hd
      cases hres : isReservedField k with
      | true => simp [addFieldSets, hres] at h
      | false =>
          simp only [addFieldSets, hres, Bool.false_eq_true, if_false] at h
          obtain ⟨hver, hmem⟩ := ih _ h (by
            intro kv hkv
            rcases List.mem_append.mp hkv with hin | hnew
            · exact hu kv hin
            · rcases List.mem_singleton.mp hnew with rfl
              intro hk
              simp only at hk
              rw [hk] at hres
              exact absurd hres (by decide))
          exact ⟨hver, hmem⟩

theorem addFieldSets_reserved_error (fs : Item) (u : Update)
    (h : ∃ kv ∈ fs, isReservedField kv.1 = true) :
    addFieldSets u fs = .error .errReservedField := by
  induction fs generalizing u with
  | nil => simp at h
  | cons hd tl ih =>
      obtain ⟨k, v⟩ := hd
      cases hres : isReservedField k with
      | true => simp [addFieldSets, hres]
      | false =>
          obtain ⟨kv, hkv, hkvres⟩ := h
          rcases List.mem_cons.mp hkv with rfl | htl
          · rw [hres] at hkvres
            exact absurd hkvres (by decide)
          · simp only [addFieldSets, hres, Bool.false_eq_true, if_false]
            exact ih _ ⟨kv, htl, hkvres⟩

theorem mem_singleton_ne_version (kv : String × AttrVal) (k : String) (v : AttrVal)
    (hkv : kv ∈ [(k, v)]) (hk : k ≠ "version") : kv.1 ≠ "version" := by
  rcases List.mem_singleton.mp hkv with rfl
  exact hk

theorem buildUpdate_ok_shape (wo : WriteOptions) (timeNow : Int) (u : Update)
    (h : buildUpdate wo timeNow = .ok u) :
    u.addVersion = 1 ∧ ∀ kv ∈ u.sets, kv.1 ≠ "version" := by
  obtain ⟨fields, value, ttl, previous⟩ := wo
  cases fields with
  | none =>
      cases value with
      | none =>
          cases ttl with
          | none =>
              simp only [buildUpdate, Bind.bind, Except.bind, List.nil_append,
                Except.ok.injEq] at h
              subst h
              exact ⟨rfl, by intro kv hkv; simp at hkv⟩
          | some t =>
              simp only [buildUpdate, Bind.bind, Except.bind, List.nil_append,
                Except.ok.injEq] at h
              subst h
              exact ⟨rfl, fun kv hkv =>
                mem_singleton_ne_version kv "expires" (AttrVal.N (timeNow + t)) hkv (by decide)⟩
      | some v =>
          cases ttl with
          | none =>
              simp only [buildUpdate, Bind.bind, Except.bind, List.nil_append,
                Except.ok.injEq] at h
              subst h
              exact ⟨rfl, fun kv hkv =>
                mem_singleton_ne_version kv "payload" (AttrVal.S v) hkv (by decide)⟩
          | some t =>
              simp only [buildUpdate, Bind.bind, Except.bind, List.nil_append,
                Except.ok.injEq] at h
              subst h
              refine ⟨rfl, ?_⟩
              intro kv hkv
              rcases List.mem_cons.mp hkv with rfl | hkv2
              · show ("payload" : String) ≠ "version"
                decide
              · exact mem_singleton_ne_version kv "expires" (AttrVal.N (timeNow + t)) hkv2
                  (by decide)
  | some fs =>
      have hstep : ∀ (init : List (String × AttrVal)) (u1 : Update),
          addFieldSets { addVersion := 1, sets := init } fs = .ok u1 →
          (∀ kv ∈ init, kv.1 ≠ "version") →
          u1.addVersion = 1 ∧ ∀ kv ∈ u1.sets, kv.1 ≠ "version" := by
        intro init u1 hb hinit
        have := addFieldSets_no_version fs _ u1 hb hinit
        exact ⟨this.1, this.2⟩
      cases value with
      | none =>
          cases hb : addFieldSets { addVersion := 1, sets := [] } fs with
          | error e =>
              cases ttl <;>
                · simp only [buildUpdate, Bind.bind, Except.bind, List.nil_append, hb] at h
                  exact Except.noConfusion h
          | ok u1 =>
              obtain ⟨hver, hmem⟩ := hstep [] u1 hb (by intro kv hkv; simp at hkv)
              cases ttl <;>
                simp only [buildUpdate, Bind.bind, Except.bind, List.nil_append, hb,
                  Except.ok.injEq] at h <;> subst h
              · exact ⟨hver, hmem⟩
              · refine ⟨hver, ?_⟩
                intro kv hkv
                rcases List.mem_append.mp hkv with hin | hnew
                · exact hmem kv hin
                · exact mem_singleton_ne_version kv _ _ hnew (by decide)
      | some v =>
          cases hb : addFieldSets { addVersion := 1, sets := [("payload", AttrVal.S v)] } fs with
          | error e =>
              cases ttl <;>
                · simp only [buildUpdate, Bind.bind, Except.bind, List.nil_append, hb] at h
                  exact Except.noConfusion h
          | ok u1 =>
              obtain ⟨hver, hmem⟩ := hstep [("payload", AttrVal.S v)] u1 hb
                (fun kv hkv => mem_singleton_ne_version kv _ _ hkv (by decide))
              cases ttl <;>
                simp only [buildUpdate, Bind.bind, Except.bind, List.nil_append, hb,
                  Except.ok.injEq] at h <;> subst h
              · exact ⟨hver, hmem⟩
              · refine ⟨hver, ?_⟩
                intro kv hkv
                rcases List.mem_append.mp hkv with hin | hnew
                · exact hmem kv hin
                · exact mem_singleton_ne_version kv _ _ hnew (by decide)

theorem getN_baseItem_version (partition key : String) (cell : Option Item) :
    (getN (baseItem partition key cell) "version").getD 0 = versionOf cell := by
  cases cell with
  | some it => rfl
  | none =>
      show (getN [("id", AttrVal.S partition), ("name", AttrVal.S key)] "version").getD 0 = 0
      have h1 : getAttr [("id", AttrVal.S partition), ("name", AttrVal.S key)] "version" = none := by
        show (if "id" = "version" then some (AttrVal.S partition)
          else if "name" = "version" then some (AttrVal.S key) else none) = none
        rw [if_neg (by decide), if_neg (by decide)]
      unfold getN
      rw [h1]
      rfl

theorem versionOf_applyUpdate (partition key : String) (wo : WriteOptions) (timeNow : Int)
    (u : Update) (cell : Option Item) (h : buildUpdate wo timeNow = .ok u) :
    versionOf (some (applyUpdate u (baseItem partition key cell))) = versionOf cell + 1 := by
  obtain ⟨hver, hmem⟩ := buildUpdate_ok_shape wo timeNow u h
  show (getN (applyUpdate u (baseItem partition key cell)) "version").getD 0 = versionOf cell + 1
  unfold applyUpdate
  rw [getN_foldl_setAttr_of_ne _ _ _ hmem, getN_addAttrN_self, hver,
    Option.getD_some, getN_baseItem_version]

/-!
The claim theorems.
-/

/-- C1: the claim states that the create-semantics condition sent by
AtomicPut is logically equivalent to "record absent OR (record present
with its expires attribute set strictly in the past)". The code builds
`(attribute_not_exists(id) AND attribute_not_exists(name)) OR
(attribute_not_exists(expires) AND expires < now)` — pairing
attribute_NOT_exists(expires) with a comparison on expires, although
the comment right above it documents `attribute_exists(expires)` — so
the second disjunct is unsatisfiable and an existing-but-expired item
is NOT admitted as a fresh create: at the concrete expired item below
the documented condition holds but the built condition evaluates
false, while on an absent record both agree. -/
theorem create_condition_divergence :
    specCreateCondition
        (some [("id", .S "p"), ("name", .S "k"), ("version", .N 1), ("expires", .N 5)])
        10 = true ∧
    condEval (updateWithConditions none 10)
        (some [("id", .S "p"), ("name", .S "k"), ("version", .N 1), ("expires", .N 5)]) = false ∧
    condEval (updateWithConditions none 10) none = true := by
  decide

/-- C2: for every AtomicPut call with a previous record, the condition
sent to the store is logically equivalent to: the stored version
equals previous.Version AND (the expires attribute is absent OR
expires >= now at expression-build time). -/
theorem update_condition_matches_spec (prev : KVPair) (timeNow : Int) (cell : Option Item) :
    condEval (updateWithConditions (some prev) timeNow) cell =
      specUpdateCondition cell prev.Version timeNow := by
  cases cell with
  | none => rfl
  | some it => rfl

/-- C7 counterexample: the claim states an item whose expires equals
the current time is treated as expired (Get/Exists not-found, the
update-condition `>=` failing, the create-condition `<` admitting a
fresh create). On the code, at `expires == now` the strict `Before`
in isItemExpired is false, so Exists reports true and Get returns the
record; the update-condition expires check succeeds (`>=` holds at
equality); and the create-condition rejects the item. -/
theorem expiry_boundary_counterexample :
    isItemExpired [("id", .S "p"), ("name", .S "k"), ("version", .N 1), ("expires", .N 10)]
        10 = false ∧
    ExistsWithContext
        (some [("id", .S "p"), ("name", .S "k"), ("version", .N 1), ("expires", .N 10)])
        10 = true ∧
    condEval (updateWithConditions (some ⟨"p", "k", 1, 10, none, []⟩) 10)
        (some [("id", .S "p"), ("name", .S "k"), ("version", .N 1), ("expires", .N 10)]) = true ∧
    condEval (updateWithConditions none 10)
        (some [("id", .S "p"), ("name", .S "k"), ("version", .N 1), ("expires", .N 10)]) = false ∧
    GetWithContext
        (some [("id", .S "p"), ("name", .S "k"), ("version", .N 1), ("expires", .N 10)])
        10 = .ok ⟨"p", "k", 1, 10, none, []⟩ := by
  refine ⟨by decide, by decide, by decide, by decide, rfl⟩

/-- C7 amended: at the exact expiry boundary an item whose expires
attribute equals the current time is treated as LIVE: isItemExpired is
false, Exists reports true, Get does not report KeyNotFound, the
update-semantics condition reduces to just the version check (its
expires disjunct succeeds at equality), and the create-semantics
condition rejects the item. -/
theorem expiry_boundary_live (it : Item) (timeNow : Int) (prev : KVPair)
    (hexp : getAttr it "expires" = some (.N timeNow))
    (hid : (getAttr it "id").isSome = true) :
    isItemExpired it timeNow = false ∧
    ExistsWithContext (some it) timeNow = true ∧
    GetWithContext (some it) timeNow ≠ .error .errKeyNotFound ∧
    condEval (updateWithConditions (some prev) timeNow) (some it) =
      (getN it "version" == some prev.Version) ∧
    condEval (updateWithConditions none timeNow) (some it) = false := by
  have hnotexp : isItemExpired it timeNow = false := by
    unfold isItemExpired
    rw [hexp]
    simp
  refine ⟨hnotexp, ?_, ?_, ?_, ?_⟩
  · show (!(isItemExpired it timeNow)) = true
    rw [hnotexp]
    rfl
  · show (if isItemExpired it timeNow then Except.error GoError.errKeyNotFound
      else match DecodeItem it with
        | .ok kv => Except.ok kv
        | .error e => Except.error (.wrapped "failed to decode item" e)) ≠
      Except.error GoError.errKeyNotFound
    rw [hnotexp, if_neg (by simp)]
    cases hd : DecodeItem it with
    | ok kv => simp
    | error e => simp
  · show (condEval (.numEq "version" prev.Version) (some it) &&
      condEval (.or (.attributeNotExists "expires") (.numGE "expires" timeNow)) (some it)) =
      (getN it "version" == some prev.Version)
    have hge : condEval (.or (.attributeNotExists "expires") (.numGE "expires" timeNow))
        (some it) = true := by
      show ((getAttr it "expires").isNone || (match getN it "expires" with
        | some n => decide (n ≥ timeNow)
        | none => false)) = true
      have hn : getN it "expires" = some timeNow := by
        unfold getN
        rw [hexp]
      rw [hn]
      simp
    rw [hge, Bool.and_true]
    rfl
  · show (((getAttr it "id").isNone && (getAttr it "name").isNone) ||
      ((getAttr it "expires").isNone && condEval (.numLT "expires" timeNow) (some it))) = false
    have h1 : (getAttr it "id").isNone = false := by
      cases hg : getAttr it "id" with
      | none => rw [hg] at hid; simp at hid
      | some v => rfl
    have h2 : (getAttr it "expires").isNone = false := by
      rw [hexp]
      rfl
    rw [h1, h2]
    rfl

/-- C8 counterexample: the claim states two field-setting write options
merge key-by-key, the later overwriting only same-named keys. On the
code, WriteWithFields assigns the whole map: after applying maps
`{a: 1}` then `{b: 2}` the configuration holds exactly `{b: 2}`, not
the merge `{a: 1, b: 2}`. -/
theorem writeWithFields_counterexample :
    (NewWriteOptions [WriteWithFields [("a", .S "1")], WriteWithFields [("b", .S "2")]]).fields
        = some [("b", .S "2")] ∧
    (NewWriteOptions [WriteWithFields [("a", .S "1")], WriteWithFields [("b", .S "2")]]).fields
        ≠ some [("a", .S "1"), ("b", .S "2")] := by
  decide

/-- C8 amended: when two field-setting write options are applied in
sequence, the later option's map wholly replaces the earlier one's:
whatever options came before, the resulting configuration's field map
is exactly the last map supplied, and keys present only in the earlier
map are dropped. -/
theorem writeWithFields_last_replaces (f1 f2 : Item) (opts : List WriteOption) :
    (NewWriteOptions (opts ++ [WriteWithFields f1, WriteWithFields f2])).fields = some f2 := by
  unfold NewWriteOptions
  rw [List.foldl_append]
  rfl

/-- Witness for expiry_boundary_live at a concrete boundary item. -/
theorem expiry_boundary_live_witness :
    isItemExpired [("id", .S "p"), ("name", .S "k"), ("version", .N 2), ("expires", .N 7)]
      7 = false :=
  (expiry_boundary_live
    [("id", .S "p"), ("name", .S "k"), ("version", .N 2), ("expires", .N 7)]
    7 ⟨"p", "k", 2, 7, none, []⟩ (by decide) (by decide)).1

theorem translateAtomicPutErr_no_ccf (previous : Option KVPair) (e : GoError) :
    translateAtomicPutErr previous e ≠ .awsError conditionalCheckFailedCode := by
  cases e with
  | awsError code =>
      show (if (code == conditionalCheckFailedCode) = true then
        (match previous with
          | none => GoError.errKeyExists
          | some _ => GoError.errKeyModified)
        else GoError.awsError code) ≠ GoError.awsError conditionalCheckFailedCode
      by_cases hc : (code == conditionalCheckFailedCode) = true
      · rw [if_pos hc]
        cases previous <;> simp
      · rw [if_neg hc]
        intro hcontra
        cases hcontra
        exact hc (by simp)
  | errKeyNotFound => simp [translateAtomicPutErr]
  | errKeyExists => simp [translateAtomicPutErr]
  | errKeyModified => simp [translateAtomicPutErr]
  | errReservedField => simp [translateAtomicPutErr]
  | decodeError msg => simp [translateAtomicPutErr]
  | wrapped ctx cause => simp [translateAtomicPutErr]

/-- C3: for every AtomicPut whose remote write fails with the store's
conditional-check-failed error — whether reported by the remote call
(`inject`) or arising from the modelled store evaluating the condition
to false — the returned error is exactly ErrKeyExists when no previous
record was supplied and exactly ErrKeyModified when one was; and the
generic conditional-check error value is never returned to the caller
for any remote outcome. -/
theorem atomicPut_error_translation (partition key : String) (wo : WriteOptions)
    (timeNow : Int) (cell : Option Item) (u : Update)
    (hbuild : buildUpdate wo timeNow = .ok u) :
    ((AtomicPutWithContext partition key wo timeNow cell
        (some (.awsError conditionalCheckFailedCode))).2.err =
      some (if wo.previous.isNone then GoError.errKeyExists else GoError.errKeyModified)) ∧
    (condEval (updateWithConditions wo.previous timeNow) cell = false →
      (AtomicPutWithContext partition key wo timeNow cell none).2.err =
        some (if wo.previous.isNone then GoError.errKeyExists else GoError.errKeyModified)) ∧
    (∀ inject : Option GoError, ∀ e : GoError,
      (AtomicPutWithContext partition key wo timeNow cell inject).2.err = some e →
      e ≠ .awsError conditionalCheckFailedCode) := by
  have htrans : translateAtomicPutErr wo.previous (.awsError conditionalCheckFailedCode) =
      (if wo.previous.isNone then GoError.errKeyExists else GoError.errKeyModified) := by
    cases wo.previous <;> simp [translateAtomicPutErr]
  refine ⟨?_, ?_, ?_⟩
  · simp only [AtomicPutWithContext, hbuild, htrans]
  · intro hcond
    simp only [AtomicPutWithContext, hbuild, hcond, Bool.false_eq_true, if_false, htrans]
  · intro inject e he
    cases inject with
    | some e0 =>
        simp only [AtomicPutWithContext, hbuild, Option.some.injEq] at he
        rw [← he]
        exact translateAtomicPutErr_no_ccf wo.previous e0
    | none =>
        cases hcond : condEval (updateWithConditions wo.previous timeNow) cell with
        | false =>
            simp only [AtomicPutWithContext, hbuild, hcond, Bool.false_eq_true, if_false,
              Option.some.injEq] at he
            rw [← he]
            exact translateAtomicPutErr_no_ccf wo.previous _
        | true =>
            simp only [AtomicPutWithContext, hbuild, hcond, if_true] at he
            cases hdec : DecodeItem (applyUpdate u (baseItem partition key cell)) with
            | ok kv => rw [hdec] at he; simp at he
            | error e2 =>
                rw [hdec] at he
                simp only [Option.some.injEq] at he
                rw [← he]
                intro hcontra
                exact GoError.noConfusion hcontra

/-- Witness for atomicPut_error_translation: a concrete create-semantics
call whose remote write reports the conditional-check failure comes
back as exactly ErrKeyExists. -/
theorem atomicPut_error_translation_witness :
    (AtomicPutWithContext "p" "k" {} 0 none
        (some (.awsError conditionalCheckFailedCode))).2.err = some GoError.errKeyExists := by
  have h := atomicPut_error_translation "p" "k" {} 0 none { addVersion := 1, sets := [] } rfl
  simpa using h.1

/-- C4: decoding the encoded pagination cursor returns the original
attribute map: the repository composes JSON serialization, gzip
compression and Base58 encoding on the way out and the three inverses
in opposite order on the way back, so whenever each external stage
inverts its encoder at the relevant point, the composite is the
identity on the map. -/
theorem cursor_roundtrip {β γ : Type} (jsonEncode : Item → β) (gzipCompress : β → γ)
    (base58Encode : γ → String) (base58Decode : String → Except GoError γ)
    (gzipDecompress : γ → Except GoError β) (jsonDecode : β → Except GoError Item)
    (m : Item)
    (h1 : base58Decode (base58Encode (gzipCompress (jsonEncode m))) =
      .ok (gzipCompress (jsonEncode m)))
    (h2 : gzipDecompress (gzipCompress (jsonEncode m)) = .ok (jsonEncode m))
    (h3 : jsonDecode (jsonEncode m) = .ok m) :
    decompressAndDecodeKey base58Decode gzipDecompress jsonDecode
      (compressAndEncodeKey jsonEncode gzipCompress base58Encode m) = .ok m := by
  unfold compressAndEncodeKey decompressAndDecodeKey
  rw [h1]
  show (gzipDecompress (gzipCompress (jsonEncode m)) >>= fun buf => jsonDecode buf) = .ok m
  rw [h2]
  show jsonDecode (jsonEncode m) = .ok m
  exact h3

/-- Witness for cursor_roundtrip with concrete (degenerate but lawful
at the point of use) codec stages and the empty attribute map. -/
theorem cursor_roundtrip_witness :
    decompressAndDecodeKey (fun _ => .ok ()) (fun _ => .ok ()) (fun _ => .ok ([] : Item))
      (compressAndEncodeKey (fun _ => ()) (fun _ => ()) (fun _ => "") ([] : Item)) =
      .ok ([] : Item) :=
  cursor_roundtrip (fun _ => ()) (fun _ => ()) (fun _ => "") (fun _ => .ok ())
    (fun _ => .ok ()) (fun _ => .ok []) [] rfl rfl rfl

/-- C5 counterexample: the claim's "otherwise" branch says that when
the fail-fast guard does not apply, a delete conditioned on
previous.Version is issued and its conditional-check failure maps to
KeyNotFound. With no previous record and an absent item the guard is
skipped, yet the code issues no delete at all: it panics on the nil
previous pointer, so the claimed behavior does not occur. -/
theorem atomicDelete_otherwise_counterexample :
    (AtomicDeleteWithContext none none 0).deleteIssued = false ∧
    (AtomicDeleteWithContext none none 0).result = .panicked ∧
    (AtomicDeleteWithContext none none 0).result ≠ .failErr .errKeyNotFound := by
  decide

/-- C5 amended: AtomicDelete first reads the current item; with no
previous record and a live (unexpired, present) item it fails fast
with exactly ErrKeyExists, issuing no delete. When a previous record
IS supplied it always issues the delete conditioned on
`version = previous.Version`; the conditional-check failure of that
delete is returned as exactly ErrKeyNotFound, and on success the item
is removed. With no previous record and an absent-or-expired item the
call panics (nil previous dereference) instead of issuing a delete. -/
theorem atomicDelete_flow (prev : KVPair) (cell : Option Item) (timeNow : Int) :
    (AtomicDeleteWithContext (some prev) cell timeNow).deleteIssued = true ∧
    (AtomicDeleteWithContext (some prev) cell timeNow).deleteCond =
      some (.numEq "version" prev.Version) ∧
    (condEval (.numEq "version" prev.Version) cell = false →
      (AtomicDeleteWithContext (some prev) cell timeNow).result = .failErr .errKeyNotFound) ∧
    (condEval (.numEq "version" prev.Version) cell = true →
      (AtomicDeleteWithContext (some prev) cell timeNow).result = .ok ∧
      (AtomicDeleteWithContext (some prev) cell timeNow).cellAfter = none) ∧
    (∀ it : Item, isItemExpired it timeNow = false →
      (AtomicDeleteWithContext none (some it) timeNow).result = .failErr .errKeyExists ∧
      (AtomicDeleteWithContext none (some it) timeNow).deleteIssued = false) ∧
    ((cell = none ∨ ∃ it, cell = some it ∧ isItemExpired it timeNow = true) →
      (AtomicDeleteWithContext none cell timeNow).result = .panicked) := by
  have hred : AtomicDeleteWithContext (some prev) cell timeNow =
      (if condEval (.numEq "version" prev.Version) cell then
        { result := .ok, deleteIssued := true,
          deleteCond := some (.numEq "version" prev.Version), cellAfter := none }
      else
        { result := .failErr .errKeyNotFound, deleteIssued := true,
          deleteCond := some (.numEq "version" prev.Version), cellAfter := cell }) := rfl
  refine ⟨?_, ?_, ?_, ?_, ?_, ?_⟩
  · rw [hred]
    cases hc : condEval (.numEq "version" prev.Version) cell <;> simp [hc]
  · rw [hred]
    cases hc : condEval (.numEq "version" prev.Version) cell <;> simp [hc]
  · intro hc
    rw [hred, hc]
    rfl
  · intro hc
    rw [hred, hc]
    exact ⟨rfl, rfl⟩
  · intro it hexp
    have hred2 : AtomicDeleteWithContext none (some it) timeNow =
        { result := .failErr .errKeyExists, deleteIssued := false, deleteCond := none,
          cellAfter := some it } := by
      simp [AtomicDeleteWithContext, hexp]
    rw [hred2]
    exact ⟨rfl, rfl⟩
  · intro h
    rcases h with rfl | ⟨it, rfl, hexp⟩
    · rfl
    · simp [AtomicDeleteWithContext, hexp]

/-- Witness for atomicDelete_flow: a delete with a previous record
against an absent item fails with exactly ErrKeyNotFound. -/
theorem atomicDelete_flow_witness :
    (AtomicDeleteWithContext (some ⟨"p", "k", 1, 0, none, []⟩) none 5).result =
      .failErr .errKeyNotFound :=
  (atomicDelete_flow ⟨"p", "k", 1, 0, none, []⟩ none 5).2.2.1 (by decide)

theorem buildUpdate_reserved_error (wo : WriteOptions) (timeNow : Int) (fs : Item)
    (hf : wo.fields = some fs) (hres : ∃ kv ∈ fs, isReservedField kv.1 = true) :
    buildUpdate wo timeNow = .error .errReservedField := by
  have herr : ∀ u0 : Update, addFieldSets u0 fs = .error .errReservedField :=
    fun u0 => addFieldSets_reserved_error fs u0 hres
  obtain ⟨fields, value, ttl, previous⟩ := wo
  simp only at hf
  subst hf
  cases value <;>
    simp only [buildUpdate, Bind.bind, Except.bind, List.nil_append, herr]

/-- C6: a write (Put or AtomicPut) whose options carry a field named by
the reserved set {id, name, version, expires, payload} fails before
any remote call — the store cell is unchanged, the remote flag is
false — and the returned error wraps exactly ErrReservedField (so
errors.Is finds it). -/
theorem reserved_field_fails_before_remote (partition key : String) (wo : WriteOptions)
    (timeNow : Int) (cell : Option Item) (fs : Item)
    (hf : wo.fields = some fs) (hres : ∃ kv ∈ fs, isReservedField kv.1 = true) :
    ((PutWithContext partition key wo timeNow cell).1 = cell ∧
      (PutWithContext partition key wo timeNow cell).2.remoteCalled = false ∧
      (PutWithContext partition key wo timeNow cell).2.err =
        some (.wrapped "failed to build update" .errReservedField)) ∧
    (∀ inject : Option GoError,
      (AtomicPutWithContext partition key wo timeNow cell inject).1 = cell ∧
      (AtomicPutWithContext partition key wo timeNow cell inject).2.remoteCalled = false ∧
      (AtomicPutWithContext partition key wo timeNow cell inject).2.err =
        some (.wrapped "failed to build update" .errReservedField)) ∧
    errIs (.wrapped "failed to build update" .errReservedField) .errReservedField = true := by
  have hbuild := buildUpdate_reserved_error wo timeNow fs hf hres
  refine ⟨?_, ?_, by decide⟩
  · simp [PutWithContext, hbuild]
  · intro inject
    simp [AtomicPutWithContext, hbuild]

/-- Witness for reserved_field_fails_before_remote: the spec's own
example, writing with fields {"version": "x"}, never reaches the
remote store. -/
theorem reserved_field_fails_before_remote_witness :
    (PutWithContext "p" "k" (NewWriteOptions [WriteWithFields [("version", .S "x")]])
      0 none).2.remoteCalled = false := by
  have h := reserved_field_fails_before_remote "p" "k"
    (NewWriteOptions [WriteWithFields [("version", .S "x")]]) 0 none
    [("version", .S "x")] rfl ⟨("version", .S "x"), by decide, by decide⟩
  exact h.1.2.1

theorem putWithContext_success_version (partition key : String) (wo : WriteOptions)
    (timeNow : Int) (cell : Option Item)
    (h : (PutWithContext partition key wo timeNow cell).2.err = none) :
    versionOf (PutWithContext partition key wo timeNow cell).1 = versionOf cell + 1 := by
  cases hbuild : buildUpdate wo timeNow with
  | error e => simp [PutWithContext, hbuild] at h
  | ok u =>
      simp only [PutWithContext, hbuild]
      exact versionOf_applyUpdate partition key wo timeNow u cell hbuild

theorem atomicPut_success_version (partition key : String) (wo : WriteOptions)
    (timeNow : Int) (cell : Option Item) (inject : Option GoError)
    (h : (AtomicPutWithContext partition key wo timeNow cell inject).2.ok = true) :
    versionOf (AtomicPutWithContext partition key wo timeNow cell inject).1 =
      versionOf cell + 1 := by
  cases hbuild : buildUpdate wo timeNow with
  | error e => simp [AtomicPutWithContext, hbuild] at h
  | ok u =>
      cases inject with
      | some e0 => simp [AtomicPutWithContext, hbuild] at h
      | none =>
          cases hcond : condEval (updateWithConditions wo.previous timeNow) cell with
          | false => simp [AtomicPutWithContext, hbuild, hcond] at h
          | true =>
              cases hdec : DecodeItem (applyUpdate u (baseItem partition key cell)) with
              | error e2 => simp [AtomicPutWithContext, hbuild, hcond, hdec] at h
              | ok kv =>
                  simp only [AtomicPutWithContext, hbuild, hcond, if_true, hdec]
                  exact versionOf_applyUpdate partition key wo timeNow u cell hbuild

theorem putSeq_version (partition key : String) (steps : List (WriteOptions × Int))
    (cell finalCell : Option Item) (h : putSeq partition key steps cell = some finalCell) :
    versionOf finalCell = versionOf cell + steps.length := by
  induction steps generalizing cell with
  | nil =>
      simp [putSeq] at h
      subst h
      simp
  | cons hd tl ih =>
      obtain ⟨wo, timeNow⟩ := hd
      cases hbuild : buildUpdate wo timeNow with
      | error e => simp [putSeq, PutWithContext, hbuild] at h
      | ok u =>
          simp only [putSeq, PutWithContext, hbuild, Option.isNone_none, if_true] at h
          have hrest := ih _ h
          rw [hrest, versionOf_applyUpdate partition key wo timeNow u cell hbuild,
            List.length_cons]
          push_cast
          ring

/-- C9: every successful write increments the stored version of the
cell by exactly 1 and never assigns it from caller input: the built
update always carries `ADD version 1` and no SET action ever targets
the version attribute; a successful Put and a successful AtomicPut
each take the version from v to v + 1; and after n successful Puts
starting from an absent record the version equals n. -/
theorem version_monotonic (partition key : String) (steps : List (WriteOptions × Int))
    (finalCell : Option Item) (h : putSeq partition key steps none = some finalCell) :
    versionOf finalCell = (steps.length : Int) ∧
    (∀ (wo : WriteOptions) (timeNow : Int) (u : Update), buildUpdate wo timeNow = .ok u →
      u.addVersion = 1 ∧ ∀ kv ∈ u.sets, kv.1 ≠ "version") ∧
    (∀ (wo : WriteOptions) (timeNow : Int) (cell : Option Item),
      (PutWithContext partition key wo timeNow cell).2.err = none →
      versionOf (PutWithContext partition key wo timeNow cell).1 = versionOf cell + 1) ∧
    (∀ (wo : WriteOptions) (timeNow : Int) (cell : Option Item) (inject : Option GoError),
      (AtomicPutWithContext partition key wo timeNow cell inject).2.ok = true →
      versionOf (AtomicPutWithContext partition key wo timeNow cell inject).1 =
        versionOf cell + 1) := by
  refine ⟨?_, ?_, ?_, ?_⟩
  · rw [putSeq_version partition key steps none finalCell h]
    show (0 : Int) + steps.length = (steps.length : Int)
    omega
  · exact fun wo timeNow u hu => buildUpdate_ok_shape wo timeNow u hu
  · exact fun wo timeNow cell hc => putWithContext_success_version partition key wo timeNow cell hc
  · exact fun wo timeNow cell inject hc =>
      atomicPut_success_version partition key wo timeNow cell inject hc

/-- Witness for version_monotonic: two plain Puts against an absent
record leave version 2. -/
theorem version_monotonic_witness :
    versionOf (some [("id", .S "p"), ("name", .S "k"), ("version", .N 2)]) = ((2 : Nat) : Int) :=
  (version_monotonic "p" "k" [({}, 0), ({}, 1)]
    (some [("id", .S "p"), ("name", .S "k"), ("version", .N 2)]) (by decide)).1

/-- C10: for every key whose stored item is absent, or present but
expired, AtomicDelete with previous = nil skips the fail-fast guard
and then dereferences the nil previous pointer while building the
version condition: the call panics, issues no delete, and no typed
error is returned. -/
theorem atomicDelete_nil_previous_panics (cell : Option Item) (timeNow : Int)
    (h : cell = none ∨ ∃ it, cell = some it ∧ isItemExpired it timeNow = true) :
    (AtomicDeleteWithContext none cell timeNow).result = .panicked ∧
    (∀ e : GoError, (AtomicDeleteWithContext none cell timeNow).result ≠ .failErr e) ∧
    (AtomicDeleteWithContext none cell timeNow).deleteIssued = false := by
  have hmain : AtomicDeleteWithContext none cell timeNow =
      { result := .panicked, deleteIssued := false, deleteCond := none,
        cellAfter := cell } := by
    rcases h with rfl | ⟨it, rfl, hexp⟩
    · rfl
    · simp [AtomicDeleteWithContext, hexp]
  rw [hmain]
  exact ⟨rfl, fun e hc => AtomicDeleteResult.noConfusion hc, rfl⟩

/-- Witness for atomicDelete_nil_previous_panics at an absent record. -/
theorem atomicDelete_nil_previous_panics_witness :
    (AtomicDeleteWithContext none none 3).result = .panicked :=
  (atomicDelete_nil_previous_panics none 3 (Or.inl rfl)).1

end Dynastore
